import Mathlib

/-!
Verification development for the Agentic-Truth-Weaver crawler core
(`src/crawlers/aaj_tak/crawl.py` and `src/crawlers/the_hindu/crawl.py`).

The Python code is shallowly embedded: pure helpers become Lean functions,
the fallible asynchronous operation wrapped by `retry_async` becomes a
function `Nat → Except E A` giving the outcome of each successive call,
the `asyncio.sleep` calls are recorded in an explicit trace, and the
cooperatively scheduled scrape tasks become a small-step transition
relation on an explicit scheduler state.  Python floats for backoff are
modelled over `ℚ` (multiplication by a power of two is exact in binary
floating point, so the modelled values agree with the program absent
overflow).  External libraries are modelled at their interfaces: `json.load`
and `xml.etree.ElementTree.fromstring` are abstract parameters (`none` when
they raise), while the two literal regular expressions used by the
extractors are implemented concretely, specialized to their patterns
(`\s` is modelled as ASCII whitespace, which the crawled inputs satisfy).
-/

namespace ATW

/-! ## Definitions -/

/-! ### Retry Policy: `retry_async` (aaj_tak/crawl.py lines 119-129,
the_hindu/crawl.py lines 138-154; the two copies are identical).

`op k` is the outcome of the `(k+1)`-th call of the wrapped operation.
`retryFrom op maxRetries bb attempt` mirrors the `while True` loop entered
with the counter `attempt` already holding the number of failures so far.
It returns the final outcome, the total number of calls made (counting
from call index 0), and the list of backoff sleeps performed. -/

def retryFrom {E A : Type} (op : Nat → Except E A) (maxRetries : Nat) (bb : ℚ) :
    Nat → Except E A × Nat × List ℚ := fun attempt =>
  match op attempt with
  | Except.ok a => (Except.ok a, attempt + 1, [])
  | Except.error e =>
      -- `attempt += 1; if attempt >= max_retries: raise`
      if maxRetries ≤ attempt + 1 then (Except.error e, attempt + 1, [])
      else
        -- `backoff = base_backoff * (2 ** (attempt - 1)); await asyncio.sleep(backoff)`
        let s := bb * 2 ^ attempt
        let r := retryFrom op maxRetries bb (attempt + 1)
        (r.1, r.2.1, s :: r.2.2)
termination_by attempt => maxRetries - attempt
decreasing_by omega

/-- `retry_async(fn, *args, max_retries=…, base_backoff=…)`: the loop starts
with `attempt = 0`. -/
def retry_async {E A : Type} (op : Nat → Except E A) (maxRetries : Nat) (bb : ℚ) :
    Except E A × Nat × List ℚ :=
  retryFrom op maxRetries bb 0

/-! ### Progress Store: `save_progress` (aaj_tak lines 105-110, the_hindu
lines 126-130) and `load_progress` (aaj_tak lines 95-102, the_hindu lines
113-123).

A filesystem is a map from path to optional contents.  `os.replace` is the
atomic rename; a crash while writing the temporary file leaves an arbitrary
prefix of the data in it (modelled by `writeCrash`). -/

def FSt : Type := String → Option String

/-- `open(p, "w").write(v)` on filesystem `f`. -/
def setFile (f : FSt) (p : String) (v : Option String) : FSt :=
  fun q => if q = p then v else f q

/-- `os.replace(src, dst)`: atomic rename of `src` over `dst`. -/
def osReplace (f : FSt) (src dst : String) : FSt :=
  fun q => if q = dst then f src else if q = src then none else f q

/-- `tmp = settings.progress_file + ".tmp"`. -/
def tmpPath (progressFile : String) : String := progressFile ++ ".tmp"

/-- `save_progress`: write the serialized set to the temporary path, then
atomically replace the destination.  (`os.makedirs` in the aaj_tak copy does
not touch any file and is omitted; `data` stands for the `json.dump` output.) -/
def save_progress (f : FSt) (progressFile data : String) : FSt :=
  osReplace (setFile f (tmpPath progressFile) (some data))
    (tmpPath progressFile) progressFile

/-- The filesystem state if the process crashes after writing only the first
`k` characters of the serialized data to the temporary file (before the
rename). -/
def writeCrash (f : FSt) (progressFile data : String) (k : Nat) : FSt :=
  setFile f (tmpPath progressFile) (some (data.take k))

/-- `os.path.dirname` on the character list: everything before the last `/`
(empty if there is none). -/
def dirnameChars (l : List Char) : List Char :=
  ((l.reverse.dropWhile (fun c => c ≠ '/')).drop 1).reverse

/-- `os.path.dirname`. -/
def dirname (p : String) : String := String.mk (dirnameChars p.data)

/-- Decoded JSON values, the interface of the external `json` module. -/
inductive JValue : Type
  | jnull : JValue
  | jbool : Bool → JValue
  | jnum : Int → JValue
  | jstr : String → JValue
  | jarr : List JValue → JValue
  | jobj : List (String × JValue) → JValue

/-- Is this value hashable (`set` elements must be)?  Lists and dicts are
unhashable in Python. -/
def JValue.hashable : JValue → Bool
  | JValue.jarr _ => false
  | JValue.jobj _ => false
  | _ => true

/-- `set(x)` for a decoded JSON value: `some` elements on success, `none` when
Python raises `TypeError`.  (The resulting Python set is represented by the
list of elements reached by iteration; only membership is consumed.) -/
def pySet : JValue → Option (List JValue)
  | JValue.jarr l => if l.all JValue.hashable then some l else none
  | JValue.jstr s => some (s.data.map (fun c => JValue.jstr (String.mk [c])))
  | JValue.jobj kvs => some (kvs.map (fun kv => JValue.jstr kv.1))
  | _ => none

/-- `list(x)` for a decoded JSON value. -/
def pyList : JValue → Option (List JValue)
  | JValue.jarr l => some l
  | JValue.jstr s => some (s.data.map (fun c => JValue.jstr (String.mk [c])))
  | JValue.jobj kvs => some (kvs.map (fun kv => JValue.jstr kv.1))
  | _ => none

/-- aaj_tak `load_progress`: `file` is the progress file's contents (`none`
when `os.path.exists` is false); any exception inside the `try` yields the
empty set. -/
def load_progress (file : Option String) (jsonLoad : String → Option JValue) :
    List JValue :=
  match file with
  | none => []
  | some c =>
      match jsonLoad c with
      | none => []                       -- json.load raised, caught
      | some v =>
          match pySet v with
          | none => []                   -- set(...) raised TypeError, caught
          | some s => s

/-- The dict comprehension `{k: list(v) for k, v in data.items()}`: fails as a
whole when any `list(v)` raises. -/
def pyDictListValues : List (String × JValue) → Option (List (String × List JValue))
  | [] => some []
  | kv :: rest =>
      match pyList kv.2 with
      | none => none
      | some l =>
          match pyDictListValues rest with
          | none => none
          | some m => some ((kv.1, l) :: m)

/-- the_hindu `load_progress`: returns a section → url-list mapping; a parsed
non-dict falls through the `try` to the final `return {}`. -/
def hindu_load_progress (file : Option String)
    (jsonLoad : String → Option JValue) : List (String × List JValue) :=
  match file with
  | none => []
  | some c =>
      match jsonLoad c with
      | none => []
      | some (JValue.jobj kvs) =>
          match pyDictListValues kvs with
          | none => []                   -- list(v) raised TypeError, caught
          | some m => m
      | some _ => []                     -- isinstance(data, dict) false

/-! ### String helpers shared by the extractors (Python `str` methods over
ASCII text). -/

/-- Python `\s` for the crawled (ASCII) inputs. -/
def pyIsSpace (c : Char) : Bool :=
  c == ' ' || c == '\t' || c == '\n' || c == '\r' || c == '\x0b' || c == '\x0c'

/-- Python `str.strip()`. -/
def pyStrip (s : String) : String :=
  String.mk (((s.data.dropWhile pyIsSpace).reverse.dropWhile pyIsSpace).reverse)

/-- Python `str.lower()` (ASCII). -/
def strLower (s : String) : String := String.mk (s.data.map Char.toLower)

/-- Does `pat` occur at the start of `s` (case-sensitive)? -/
def litAt : List Char → List Char → Bool
  | [], _ => true
  | _ :: _, [] => false
  | p :: ps, c :: cs => p == c && litAt ps cs

/-- Python `pat in s` (case-sensitive substring containment). -/
def containsSub (pat : List Char) : List Char → Bool
  | [] => litAt pat []
  | c :: rest => litAt pat (c :: rest) || containsSub pat rest

/-- Python `s.endswith(pat)`. -/
def endsWithStr (s pat : String) : Bool := litAt pat.data.reverse s.data.reverse

/-- Case-insensitive character comparison (regex `re.IGNORECASE`). -/
def lcEq (a b : Char) : Bool := a.toLower == b.toLower

/-- Match the literal `pat` case-insensitively at the start of `s`, returning
the remainder on success. -/
def matchLitCI : List Char → List Char → Option (List Char)
  | [], s => some s
  | _ :: _, [] => none
  | p :: ps, c :: cs => if lcEq p c then matchLitCI ps cs else none

/-- Case-insensitive substring search (at any position). -/
def containsCI (pat : List Char) : List Char → Bool
  | [] => (matchLitCI pat []).isSome
  | c :: rest => (matchLitCI pat (c :: rest)).isSome || containsCI pat rest

/-- `\s*`. -/
def dropSpaces (s : List Char) : List Char := s.dropWhile pyIsSpace

/-! ### The de-duplication loop shared by both extractors:
`seen = set(); out = []; for u in …: if u not in seen: seen.add(u); out.append(u)`. -/

/-- The loop state is `(out, seen)`; the result is `out`. -/
def dedupFirst (found : List String) : List String :=
  (found.foldl
    (fun (acc : List String × List String) u =>
      if u ∈ acc.2 then acc else (acc.1 ++ [u], u :: acc.2))
    ([], [])).1

/-- Recursive reformulation of the same loop (used for the proofs). -/
def dedupAux (seen : List String) : List String → List String
  | [] => []
  | u :: rest =>
      if u ∈ seen then dedupAux seen rest else u :: dedupAux (u :: seen) rest

/-! ### The aaj_tak sitemap regex
`<loc>\s*(?:<!\[CDATA\[\s*)?(https?://[^<\]\s]+)(?:\s*\]\]>)?\s*</loc>`
(re.IGNORECASE), and the_hindu feed regex
`https?://[^\s<]+thehindu\.com[^\s<]*` (re.IGNORECASE), implemented
concretely.  Both patterns are deterministic: the only optional pieces are
guarded by characters excluded from the adjacent character classes, so a
left-to-right matcher without backtracking realizes the Python semantics. -/

/-- Character class `[^<\]\s]` of the sitemap pattern. -/
def isLocUrlChar (c : Char) : Bool := !(c == '<' || c == ']' || pyIsSpace c)

/-- Character class `[^\s<]` of the feed pattern. -/
def isHinduRunChar (c : Char) : Bool := !(pyIsSpace c || c == '<')

/-- After the literal `http`, does an (IGNORECASE) `s` followed by `://`
follow?  Encodes the greedy-with-backtracking `https?://`. -/
def schemeHasS : List Char → Bool
  | c :: rest => lcEq c 's' && (matchLitCI "://".data rest).isSome
  | [] => false

/-- `https?://`: returns the matched length (7 or 8). -/
def matchScheme (s : List Char) : Option Nat :=
  match matchLitCI "http".data s with
  | none => none
  | some r =>
      if schemeHasS r then some 8
      else if (matchLitCI "://".data r).isSome then some 7
      else none

/-- `(https?://[^<\]\s]+)`: returns the length of the captured URL. -/
def matchUrl (s : List Char) : Option Nat :=
  match matchScheme s with
  | none => none
  | some n =>
      let u := (s.drop n).takeWhile isLocUrlChar
      if u.isEmpty then none else some (n + u.length)

/-- `(?:<!\[CDATA\[\s*)?` after the leading `\s*` already consumed. -/
def cdataOpen (s : List Char) : List Char :=
  match matchLitCI "<![CDATA[".data s with
  | some r => dropSpaces r
  | none => s

/-- `(?:\s*\]\]>)?`. -/
def cdataClose (s : List Char) : List Char :=
  match matchLitCI "]]>".data (dropSpaces s) with
  | some r => r
  | none => s

/-- Try the whole sitemap pattern at the start of `s`; on success return the
captured URL and the remainder after the match. -/
def matchLoc1 (s : List Char) : Option (List Char × List Char) :=
  match matchLitCI "<loc>".data s with
  | none => none
  | some s1 =>
      let s3 := cdataOpen (dropSpaces s1)
      match matchUrl s3 with
      | none => none
      | some ulen =>
          match matchLitCI "</loc>".data (dropSpaces (cdataClose (s3.drop ulen))) with
          | none => none
          | some rest => some (s3.take ulen, rest)

/-- Try the whole feed pattern at the start of `s`; on success return the full
match (the pattern has no groups, so `findall` yields full matches) and the
remainder. -/
def hinduMatchAt (s : List Char) : Option (List Char × List Char) :=
  match matchScheme s with
  | none => none
  | some n =>
      let run := (s.drop n).takeWhile isHinduRunChar
      -- `[^\s<]+` needs at least one character before `thehindu\.com`,
      -- which must therefore start at index ≥ 1 of the run
      if !run.isEmpty && containsCI "thehindu.com".data run.tail
      then some (s.take n ++ run, (s.drop n).dropWhile isHinduRunChar)
      else none

/-- `re.findall` scan: try the pattern at every position, left to right,
continuing after each non-overlapping match.  `fuel` is a structural bound;
`reFindAux_fuel` below shows any fuel ≥ the input length gives the same
result, so `findall` instantiates it with the input length. -/
def reFindAux (matchAt : List Char → Option (List Char × List Char)) :
    Nat → List Char → List String
  | 0, _ => []
  | _ + 1, [] => []
  | fuel + 1, c :: rest =>
      match matchAt (c :: rest) with
      | some (m, after) => String.mk m :: reFindAux matchAt fuel after
      | none => reFindAux matchAt fuel rest

/-- `regex.findall(xml_text)` for the sitemap pattern (captured URLs). -/
def locFindall (s : String) : List String := reFindAux matchLoc1 s.data.length s.data

/-- `regex.findall(xml_text)` for the feed pattern (full matches). -/
def hinduFindall (s : String) : List String :=
  reFindAux hinduMatchAt s.data.length s.data

/-! ### The XML element tree (interface of `xml.etree.ElementTree`).

`ET.fromstring` is abstract: an extractor takes the raw text together with
`parse : Option XMLElem`, `none` when parsing raises (all three strategies
parse the same text, so they all succeed or all fail together).  Namespaced
tags use ElementTree's `\x7buri\x7dlocal` convention. -/

mutual
inductive XMLElem : Type
  | mk : String → Option String → XMLForest → XMLElem
inductive XMLForest : Type
  | nil : XMLForest
  | cons : XMLElem → XMLForest → XMLForest
end

def XMLElem.tag : XMLElem → String
  | XMLElem.mk t _ _ => t

def XMLElem.text : XMLElem → Option String
  | XMLElem.mk _ x _ => x

/-- The direct children, as a list (Python `element[:]` / iteration). -/
def XMLForest.toList : XMLForest → List XMLElem
  | XMLForest.nil => []
  | XMLForest.cons c rest => c :: rest.toList

def XMLElem.children : XMLElem → List XMLElem
  | XMLElem.mk _ _ cs => cs.toList

mutual
/-- `root.iter()`: document-order (preorder) traversal, root included. -/
def XMLElem.iterAll : XMLElem → List XMLElem
  | XMLElem.mk t x cs => XMLElem.mk t x cs :: XMLForest.iterAll cs
def XMLForest.iterAll : XMLForest → List XMLElem
  | XMLForest.nil => []
  | XMLForest.cons c rest => XMLElem.iterAll c ++ XMLForest.iterAll rest
end

/-- The sitemap namespace of aaj_tak strategy 1. -/
def nsURI : String := "http://www.sitemaps.org/schemas/sitemap/0.9"

/-- ElementTree's qualified-tag spelling `\x7buri\x7dlocal`. -/
def nsTag (localName : String) : String := "\x7b" ++ nsURI ++ "\x7d" ++ localName

/-- `loc = url_tag.find(locName); if loc is not None and loc.text:
urls.append(loc.text.strip())`. -/
def locTextOf (u : XMLElem) (locName : String) : Option String :=
  match u.children.find? (fun c => c.tag == locName) with
  | none => none
  | some loc =>
      match loc.text with
      | none => none
      | some t => if t = "" then none else some (pyStrip t)

/-- aaj_tak strategies 1 and 2 (lines 156-183): `root.findall(urlName)` then
each child `loc`. -/
def strategy12 (root : XMLElem) (urlName locName : String) : List String :=
  (root.children.filter (fun c => c.tag == urlName)).filterMap
    (fun u => locTextOf u locName)

/-- aaj_tak strategy 3 (lines 185-195): generic `iter()`, tags ending in
`loc` (case-insensitively), non-empty text. -/
def strategy3 (root : XMLElem) : List String :=
  root.iterAll.filterMap (fun el =>
    if (el.tag != "") && endsWithStr (strLower el.tag) "loc" then
      match el.text with
      | none => none
      | some t => if t = "" then none else some (pyStrip t)
    else none)

/-- aaj_tak `extract_urls_from_sitemap_robust` (lines 140-207).  The
`debug_preview` print is I/O-only and omitted. -/
def extract_urls_from_sitemap_robust (xmlText : String) (parse : Option XMLElem) :
    List String :=
  if xmlText.length < 20 then []       -- `if not xml_text or len(xml_text) < 20`
  else
    match parse with
    | none => dedupFirst ((locFindall xmlText).map pyStrip)
    | some root =>
        let u1 := strategy12 root (nsTag "url") (nsTag "loc")
        if u1 ≠ [] then u1
        else
          let u2 := strategy12 root "url" "loc"
          if u2 ≠ [] then u2
          else
            let u3 := strategy3 root
            if u3 ≠ [] then u3
            else dedupFirst ((locFindall xmlText).map pyStrip)

/-- the_hindu: the inner loop of the XML strategy — direct children of an
`item` whose tag ends with `link`, text stripped, kept when it starts with
`http` and contains `thehindu.com`. -/
def hinduLinksOfItem (item : XMLElem) : List String :=
  item.children.filterMap (fun child =>
    if endsWithStr child.tag "link" then
      match child.text with
      | none => none
      | some t =>
          if t = "" then none
          else
            let link := pyStrip t
            if litAt "http".data link.data && containsSub "thehindu.com".data link.data
            then some link else none
    else none)

/-- the_hindu XML strategy (lines 184-202): walk 'item' elements in document
order, collect their qualifying links. -/
def hinduCollect (root : XMLElem) : List String :=
  ((root.iterAll.filter (fun it => endsWithStr it.tag "item")).map
    hinduLinksOfItem).flatten

/-- the_hindu `extract_article_urls_from_feed` (lines 165-217); the
`debug_preview` on parse failure is I/O-only and omitted. -/
def extract_article_urls_from_feed (xmlText : String) (parse : Option XMLElem) :
    List String :=
  if xmlText.length < 20 then []
  else
    match parse with
    | none => dedupFirst ((hinduFindall xmlText).map pyStrip)
    | some root =>
        let urls := hinduCollect root
        if urls ≠ [] then dedupFirst urls
        else dedupFirst ((hinduFindall xmlText).map pyStrip)

/-! ### Concrete extractor inputs used by counterexamples and witnesses. -/

/-- A well-formed sitemap whose two `<url><loc>` entries carry the same URL. -/
def sitemapDupText : String :=
  "<urlset><url><loc>https://a.example/x</loc></url><url><loc>https://a.example/x</loc></url></urlset>"

/-- The parse of `sitemapDupText` (namespaced, as ElementTree returns it). -/
def sitemapDupTree : XMLElem :=
  XMLElem.mk (nsTag "urlset") none
    (XMLForest.cons
      (XMLElem.mk (nsTag "url") none
        (XMLForest.cons
          (XMLElem.mk (nsTag "loc") (some "https://a.example/x") XMLForest.nil)
          XMLForest.nil))
      (XMLForest.cons
        (XMLElem.mk (nsTag "url") none
          (XMLForest.cons
            (XMLElem.mk (nsTag "loc") (some "https://a.example/x") XMLForest.nil)
            XMLForest.nil))
        XMLForest.nil))

/-- A well-formed XML document whose only `<loc>` markup sits inside a CDATA
section, i.e. in the root's text, invisible to the tree strategies. -/
def cdataText : String := "<root><![CDATA[<loc>https://x.example/a</loc>]]></root>"

/-- The parse of `cdataText`: one element, no children, the CDATA payload as
its text. -/
def cdataTree : XMLElem :=
  XMLElem.mk "root" (some "<loc>https://x.example/a</loc>") XMLForest.nil

/-! ### Fetch helpers: `fetch_sitemap_via_crawler` (aaj_tak lines 211-221) and
`fetch_text_via_crawler` (the_hindu lines 220-230).

`arun k` is the outcome of the `(k+1)`-th `crawler.arun` call: an exception,
or a response object whose `html` attribute is `none` (absent/None) or a
string.  The second component of the result counts the `arun` calls made. -/

def fetch_sitemap_via_crawler (arun : Nat → Except String (Option String))
    (maxRetries : Nat) (bb : ℚ) : Except String String × Nat :=
  let r := retry_async arun maxRetries bb
  match r.1 with
  | Except.error e => (Except.error e, r.2.1)
  | Except.ok htmlOpt =>
      let xmlText := htmlOpt.getD ""   -- `getattr(res, "html", "") or ""`
      if xmlText = "" then (Except.error "Empty sitemap response from crawler.", r.2.1)
      else (Except.ok xmlText, r.2.1)

def fetch_text_via_crawler (url : String) (arun : Nat → Except String (Option String))
    (maxRetries : Nat) (bb : ℚ) : Except String String × Nat :=
  let r := retry_async arun maxRetries bb
  match r.1 with
  | Except.error e => (Except.error e, r.2.1)
  | Except.ok htmlOpt =>
      let text := htmlOpt.getD ""
      if text = "" then (Except.error ("Empty response from " ++ url), r.2.1)
      else (Except.ok text, r.2.1)

/-! ### The markdown extraction and per-page outcome of `scrape_single_page`
(aaj_tak lines 225-288) / `scrape_article_and_save` (the_hindu lines 235-310),
after the fetch has been resolved. -/

/-- `result.markdown`: a string or a `MarkdownGenerationResult`-like object
with optional `raw_markdown` / `fit_markdown` fields. -/
inductive MdField : Type
  | mdStr : String → MdField
  | mdObj : Option String → Option String → MdField

/-- The duck-typed crawl response fields probed by the scrape body. -/
structure CrawlResult where
  markdown : Option MdField
  extracted_content : Option String
  html : Option String

/-- Python `x or y` where `x` is `None` or a string (`None` and `""` falsy). -/
def orStr (a : Option String) (b : String) : String :=
  match a with
  | some s => if s = "" then b else s
  | none => b

/-- Truthiness of `getattr(result, "markdown", None)`. -/
def mdTruthy : Option MdField → Bool
  | none => false
  | some (MdField.mdStr s) => s ≠ ""
  | some (MdField.mdObj _ _) => true

/-- The `md` computed by the scrape body before writing the output file. -/
def extractMd (r : CrawlResult) : String :=
  let md :=
    if mdTruthy r.markdown then
      match r.markdown with
      | some (MdField.mdStr s) => s
      | some (MdField.mdObj raw fit) => orStr raw (orStr fit "")
      | none => ""
    else ""
  if md = "" then orStr r.extracted_content (orStr r.html "") else md

inductive ScrapeOutcome : Type
  | skipped : ScrapeOutcome
  | completed : String → ScrapeOutcome
  | failed : String → ScrapeOutcome

/-- Functional outcome of one scrape task: `fetch` is the resolved result of
`retry_async(crawler.arun, url, …)`.  On success the content (possibly empty)
is written and the URL joins the done set; on error the URL is logged and the
done set is unchanged. -/
def scrape_single_page (url : String) (done : List String)
    (fetch : Except String CrawlResult) : ScrapeOutcome × List String :=
  if url ∈ done then (ScrapeOutcome.skipped, done)
  else
    match fetch with
    | Except.error e => (ScrapeOutcome.failed e, done)
    | Except.ok r => (ScrapeOutcome.completed (extractMd r), url :: done)

/-! ### `url_to_fname` (aaj_tak lines 70-74, the_hindu lines 97-102; the two
copies are identical).  `sha1hex url` is the external
`sha1(url.encode()).hexdigest()`. -/

/-- Python `str.replace(pat, rep)`: replace every non-overlapping occurrence,
scanning left to right.  `fuel` is a structural bound; `replaceFuel_fuel`
below shows any fuel ≥ the input length gives the same result.  (For the
empty pattern the Python semantics differ, but all patterns used here are
non-empty.) -/
def replaceFuel : Nat → List Char → List Char → List Char → List Char
  | 0, _, _, s => s
  | _ + 1, [], _, s => s
  | _ + 1, _ :: _, _, [] => []
  | fuel + 1, p :: ps, r, c :: cs =>
      if litAt (p :: ps) (c :: cs) then
        r ++ replaceFuel fuel (p :: ps) r (cs.drop ps.length)
      else c :: replaceFuel fuel (p :: ps) r cs

def replaceAll (p r s : List Char) : List Char := replaceFuel s.length p r s

/-- The alphabet of `sha1(...).hexdigest()`. -/
def hexDigits : List Char := "0123456789abcdef".data

def url_to_fname (sha1hex : String → String) (url : String) : String :=
  let h := String.mk ((sha1hex url).data.take 12)
  let nice := String.mk (replaceAll "/".data "_".data
    (replaceAll "http://".data [] (replaceAll "https://".data [] url.data)))
  let nice2 := if 60 < nice.length then String.mk (nice.data.take 60) ++ "..." else nice
  nice2 ++ "_" ++ h

/-! ### The Bounded Scrape Scheduler of one run for one crawl source
(aaj_tak `scrape_urls_from_sitemap` lines 292-310 dispatching
`scrape_single_page` lines 225-288; the_hindu `process_feed` lines 315-339
dispatching `scrape_article_and_save`).

Each pending URL becomes one task; the cooperative event loop interleaves
them, so executions are runs of a small-step relation.  A task: checks the
done set (scrape_single_page line 227) — skipping or proceeding; awaits the
semaphore (`async with SEM`, line 233) — acquiring one of the
`settings.concurrency` permits; fetches while holding the permit; and on
leaving the `async with` block releases the permit, having either appended
its URL to the done set (success, lines 283-284) or only logged the failure
(lines 286-288). -/

inductive Phase : Type
  | notStarted : Phase
  | skipped : Phase
  | waiting : Phase
  | running : Phase
  | succeeded : Phase
  | failed : Phase
deriving DecidableEq

structure STask where
  url : String
  phase : Phase
deriving DecidableEq

structure SchedState where
  tasks : List STask
  avail : Nat            -- free permits of the semaphore
  done : List String     -- the shared done set / progress record
deriving DecidableEq

/-- One task per candidate URL, all permits free, the loaded progress set. -/
def initState (limit : Nat) (urls done0 : List String) : SchedState :=
  ⟨urls.map (fun u => ⟨u, Phase.notStarted⟩), limit, done0⟩

/-- The interleaved steps of the per-URL tasks. -/
inductive SchedStep : SchedState → SchedState → Prop
  | skip (s : SchedState) (i : Nat) (t : STask)
      (ht : s.tasks[i]? = some t) (hp : t.phase = Phase.notStarted)
      (hd : t.url ∈ s.done) :
      SchedStep s ⟨s.tasks.set i ⟨t.url, Phase.skipped⟩, s.avail, s.done⟩
  | proceed (s : SchedState) (i : Nat) (t : STask)
      (ht : s.tasks[i]? = some t) (hp : t.phase = Phase.notStarted)
      (hd : t.url ∉ s.done) :
      SchedStep s ⟨s.tasks.set i ⟨t.url, Phase.waiting⟩, s.avail, s.done⟩
  | acquire (s : SchedState) (i : Nat) (t : STask)
      (ht : s.tasks[i]? = some t) (hp : t.phase = Phase.waiting)
      (ha : 0 < s.avail) :
      SchedStep s ⟨s.tasks.set i ⟨t.url, Phase.running⟩, s.avail - 1, s.done⟩
  | finishOk (s : SchedState) (i : Nat) (t : STask)
      (ht : s.tasks[i]? = some t) (hp : t.phase = Phase.running) :
      SchedStep s ⟨s.tasks.set i ⟨t.url, Phase.succeeded⟩, s.avail + 1, t.url :: s.done⟩
  | finishFail (s : SchedState) (i : Nat) (t : STask)
      (ht : s.tasks[i]? = some t) (hp : t.phase = Phase.running) :
      SchedStep s ⟨s.tasks.set i ⟨t.url, Phase.failed⟩, s.avail + 1, s.done⟩

/-- States of one run reachable from the initial state. -/
def Reachable (limit : Nat) (urls done0 : List String) (s : SchedState) : Prop :=
  Relation.ReflTransGen SchedStep (initState limit urls done0) s

/-- The number of simultaneously active (permit-holding) page fetches. -/
def countRunning (s : SchedState) : Nat :=
  s.tasks.countP (fun t => t.phase == Phase.running)

/-- The orchestrator's pending list `[u for u in urls if u not in done]`
(aaj_tak line 306, the_hindu line 329). -/
def to_process (urls done : List String) : List String :=
  urls.filter (fun u => !done.contains u)

/-! ## Theorems -/

/-! ### Retry Policy (C1) -/

/-- If calls `j, j+1, …, j+k-1` fail and call `j+k` succeeds (still within the
retry budget), the loop entered at `attempt = j` returns that success after
`j+k+1` total calls, sleeping `bb * 2^(j+i)` after the `(j+i+1)`-th call. -/
theorem retryFrom_ok {E A : Type} (op : Nat → Except E A) (mr : Nat) (bb : ℚ)
    (k : Nat) (a : A) :
    ∀ j, j + k < mr → (∀ i, i < k → ∃ e, op (j + i) = Except.error e) →
      op (j + k) = Except.ok a →
      retryFrom op mr bb j =
        (Except.ok a, j + k + 1, (List.range k).map (fun i => bb * 2 ^ (j + i))) := by
  induction k with
  | zero =>
      intro j hlt _ hok
      rw [retryFrom]
      simp only [Nat.add_zero] at hok
      rw [hok]
      simp
  | succ k ih =>
      intro j hlt hfail hok
      obtain ⟨e, he⟩ := hfail 0 (Nat.succ_pos k)
      rw [retryFrom]
      rw [show j + 0 = j by omega] at he
      rw [he]
      have hnot : ¬ mr ≤ j + 1 := by omega
      simp only [if_neg hnot]
      have ih' := ih (j + 1) (by omega)
        (fun i hi => by
          obtain ⟨e', he'⟩ := hfail (i + 1) (by omega)
          exact ⟨e', by rw [show j + 1 + i = j + (i + 1) by omega]; exact he'⟩)
        (by rw [show j + 1 + k = j + (k + 1) by omega]; exact hok)
      rw [ih']
      refine Prod.ext rfl (Prod.ext (by simp; omega) ?_)
      show bb * 2 ^ j :: (List.range k).map (fun i => bb * 2 ^ (j + 1 + i)) =
        (List.range (k + 1)).map (fun i => bb * 2 ^ (j + i))
      rw [List.range_succ_eq_map]
      simp only [List.map_cons, List.map_map]
      refine congrArg₂ _ (by rw [Nat.add_zero]) ?_
      refine List.map_congr_left (fun i _ => ?_)
      simp only [Function.comp_apply]
      rw [show j + 1 + i = j + (i + 1) by omega]

/-- If every call fails, the loop entered at `attempt = j` with `mr = j+k+1`
re-raises the error of the final (`mr`-th) call after exactly `mr` total
calls, with the full backoff trace. -/
theorem retryFrom_allFail {E A : Type} (op : Nat → Except E A) (mr : Nat) (bb : ℚ)
    (k : Nat) (e : E) :
    ∀ j, j + k + 1 = mr → (∀ i, i ≤ k → ∃ e', op (j + i) = Except.error e') →
      op (j + k) = Except.error e →
      retryFrom op mr bb j =
        (Except.error e, j + k + 1, (List.range k).map (fun i => bb * 2 ^ (j + i))) := by
  induction k with
  | zero =>
      intro j hmr _ hlast
      rw [retryFrom]
      simp only [Nat.add_zero] at hlast
      rw [hlast]
      simp only [if_pos (by omega : mr ≤ j + 1)]
      simp
  | succ k ih =>
      intro j hmr hfail hlast
      obtain ⟨e', he'⟩ := hfail 0 (Nat.zero_le _)
      rw [retryFrom]
      rw [show j + 0 = j by omega] at he'
      rw [he']
      have hnot : ¬ mr ≤ j + 1 := by omega
      simp only [if_neg hnot]
      have ih' := ih (j + 1) (by omega)
        (fun i hi => by
          obtain ⟨e'', he''⟩ := hfail (i + 1) (by omega)
          exact ⟨e'', by rw [show j + 1 + i = j + (i + 1) by omega]; exact he''⟩)
        (by rw [show j + 1 + k = j + (k + 1) by omega]; exact hlast)
      rw [ih']
      refine Prod.ext rfl (Prod.ext (by simp; omega) ?_)
      show bb * 2 ^ j :: (List.range k).map (fun i => bb * 2 ^ (j + 1 + i)) =
        (List.range (k + 1)).map (fun i => bb * 2 ^ (j + i))
      rw [List.range_succ_eq_map]
      simp only [List.map_cons, List.map_map]
      refine congrArg₂ _ (by rw [Nat.add_zero]) ?_
      refine List.map_congr_left (fun i _ => ?_)
      simp only [Function.comp_apply]
      rw [show j + 1 + i = j + (i + 1) by omega]

/-- Claim C1: for every asynchronous operation, every `max_attempts ≥ 1` and
every `base_backoff`, the retry wrapper calls the operation until it succeeds
or `max_attempts` calls have failed; after the `k`-th consecutive failure with
`k < max_attempts` it sleeps `base_backoff * 2^(k-1)` before the next call;
after `max_attempts` failures it re-raises the final error; if the operation
succeeds on attempt `k` it is called exactly `k` times and its result is
returned.  (Attempts are 1-indexed in the claim; call index `i` here is
attempt `i+1`.) -/
theorem C1_retry_policy {E A : Type} (op : Nat → Except E A) (mr : Nat) (bb : ℚ)
    (hmr : 1 ≤ mr) :
    (∀ k a, k < mr → (∀ i, i < k → ∃ e, op i = Except.error e) →
        op k = Except.ok a →
        retry_async op mr bb =
          (Except.ok a, k + 1, (List.range k).map (fun i => bb * 2 ^ i))) ∧
    (∀ e, (∀ i, i < mr → ∃ e', op i = Except.error e') →
        op (mr - 1) = Except.error e →
        retry_async op mr bb =
          (Except.error e, mr, (List.range (mr - 1)).map (fun i => bb * 2 ^ i))) := by
  constructor
  · intro k a hk hfail hok
    have h := retryFrom_ok op mr bb k a 0 (by omega)
      (fun i hi => by simpa using hfail i hi) (by simpa using hok)
    simpa using h
  · intro e hfail hlast
    have h := retryFrom_allFail op mr bb (mr - 1) e 0 (by omega)
      (fun i hi => by simpa using hfail i (by omega)) (by simpa using hlast)
    rw [retry_async, h]
    refine Prod.ext rfl (Prod.ext (by simp; omega) (by simp))

/-- Witness for C1: an operation failing twice then succeeding on attempt 3
with `max_attempts = 3` is called exactly 3 times, the result is returned, and
the sleeps are `base_backoff` then `base_backoff * 2` (here `base_backoff = 1`). -/
theorem C1_retry_policy_witness :
    retry_async (fun i => if i < 2 then Except.error "boom" else Except.ok "page")
        3 1 = (Except.ok "page", 3, [1, 2]) := by
  have h := (C1_retry_policy
      (fun i => if i < 2 then Except.error "boom" else Except.ok "page") 3 1
      (by omega)).1 2 "page" (by omega)
    (fun i hi => ⟨"boom", by interval_cases i <;> rfl⟩) (by rfl)
  rw [h]
  norm_num [List.range_succ]

/-! ### Progress Store persistence (C2) -/

lemma dropWhile_append_all {p : Char → Bool} :
    ∀ (s t : List Char), (∀ c ∈ s, p c) →
      List.dropWhile p (s ++ t) = List.dropWhile p t := by
  intro s t hs
  induction s with
  | nil => rfl
  | cons c cs ih =>
      simp only [List.cons_append, List.dropWhile_cons]
      rw [if_pos (hs c (List.mem_cons_self c cs))]
      exact ih (fun c' hc' => hs c' (List.mem_cons_of_mem _ hc'))

lemma dirnameChars_append (l s : List Char) (h : '/' ∉ s) :
    dirnameChars (l ++ s) = dirnameChars l := by
  unfold dirnameChars
  rw [List.reverse_append]
  rw [dropWhile_append_all s.reverse l.reverse
    (fun c hc => by
      simp only [List.mem_reverse] at hc
      exact decide_eq_true (fun he => h (he ▸ hc)))]

lemma data_append (a b : String) : (a ++ b).data = a.data ++ b.data := by
  cases a; cases b; rfl

lemma tmpPath_ne (pf : String) : tmpPath pf ≠ pf := by
  intro h
  have hd : (tmpPath pf).data = pf.data := congrArg String.data h
  rw [tmpPath, data_append] at hd
  have : pf.data.length + 4 = pf.data.length := by
    conv_rhs => rw [← hd]
    simp [List.length_append]
  omega

/-- Claim C2: `save_progress` writes the serialized ProgressSet to a temporary
path in the same directory as the destination and then replaces the
destination with a single atomic rename; a crash at any point before the
rename (modelled by an arbitrary prefix of the data reaching the temporary
file) leaves the previously persisted progress file intact, and every
observable state of the destination is either the old contents or the
complete new contents — never a truncation. -/
theorem C2_atomic_save (f : FSt) (pf data : String) (k : Nat) :
    dirname (tmpPath pf) = dirname pf ∧
    writeCrash f pf data k pf = f pf ∧
    save_progress f pf data pf = some data := by
  refine ⟨?_, ?_, ?_⟩
  · unfold dirname tmpPath
    rw [data_append]
    rw [dirnameChars_append pf.data ".tmp".data (by decide)]
  · unfold writeCrash setFile
    rw [if_neg (fun he => tmpPath_ne pf he.symm)]
  · unfold save_progress osReplace setFile
    simp

/-! ### Progress Store loading (C7) -/

/-- Counterexample to Claim C7: a progress file whose contents are the valid
JSON document `"ab"` (a JSON string — readable and parseable, but not the
expected list-of-URLs structure) makes aaj_tak `load_progress` return the
non-empty set `{"a", "b"}` of the string's characters, not the empty set. -/
theorem C7_load_counterexample :
    load_progress (some "\"ab\"") (fun _ => some (JValue.jstr "ab")) =
      [JValue.jstr "a", JValue.jstr "b"] ∧
    load_progress (some "\"ab\"") (fun _ => some (JValue.jstr "ab")) ≠ [] := by
  exact ⟨rfl, fun h => List.cons_ne_nil _ _ h⟩

/-- Claim C7 (amended): loading progress always returns normally; a missing
file, a file whose contents fail to parse as JSON, or a parsed value whose
conversion raises (`set` of a non-iterable or of unhashable elements for
aaj_tak; a non-dict, or a dict with a non-iterable value, for the_hindu)
yields the empty progress set.  However a parsed JSON value of an unexpected
but iterable shape is converted rather than treated as corrupt, so the result
can be a non-empty set that is not a set of URLs. -/
theorem C7_load_amended (jsonLoad : String → Option JValue) (c : String) :
    load_progress none jsonLoad = [] ∧
    hindu_load_progress none jsonLoad = [] ∧
    (jsonLoad c = none →
      load_progress (some c) jsonLoad = [] ∧
      hindu_load_progress (some c) jsonLoad = []) ∧
    (∀ v, jsonLoad c = some v → pySet v = none →
      load_progress (some c) jsonLoad = []) ∧
    (∀ v, jsonLoad c = some v → (∀ kvs, v ≠ JValue.jobj kvs) →
      hindu_load_progress (some c) jsonLoad = []) ∧
    (∀ kvs, jsonLoad c = some (JValue.jobj kvs) →
      pyDictListValues kvs = none →
      hindu_load_progress (some c) jsonLoad = []) := by
  refine ⟨rfl, rfl, ?_, ?_, ?_, ?_⟩
  · intro h
    exact ⟨by simp [load_progress, h], by simp [hindu_load_progress, h]⟩
  · intro v hv hset
    simp [load_progress, hv, hset]
  · intro v hv hne
    cases v with
    | jobj kvs => exact absurd rfl (hne kvs)
    | jnull => simp [hindu_load_progress, hv]
    | jbool b => simp [hindu_load_progress, hv]
    | jnum n => simp [hindu_load_progress, hv]
    | jstr s => simp [hindu_load_progress, hv]
    | jarr l => simp [hindu_load_progress, hv]
  · intro kvs hv hmap
    simp [hindu_load_progress, hv, hmap]

/-- Witness for the amended C7: concrete corrupt inputs all load as empty. -/
theorem C7_load_amended_witness :
    load_progress (some "not json") (fun _ => none) = [] ∧
    load_progress (some "5") (fun _ => some (JValue.jnum 5)) = [] ∧
    hindu_load_progress (some "[1]") (fun _ => some (JValue.jarr [JValue.jnum 1]))
      = [] := by
  have h1 := C7_load_amended (fun _ => none) "not json"
  have h2 := C7_load_amended (fun _ => some (JValue.jnum 5)) "5"
  have h3 := C7_load_amended (fun _ => some (JValue.jarr [JValue.jnum 1])) "[1]"
  exact ⟨(h1.2.2.1 rfl).1,
    h2.2.2.2.1 (JValue.jnum 5) rfl rfl,
    h3.2.2.2.2.1 (JValue.jarr [JValue.jnum 1]) rfl
      (fun kvs h => JValue.noConfusion h)⟩

/-! ### Adequacy of the structural fuel bounds: any fuel at least the input
length yields the same result, so instantiating the fuel with the input
length is faithful to the unbounded Python scans. -/

lemma length_dropWhile_le (p : Char → Bool) (l : List Char) :
    (l.dropWhile p).length ≤ l.length := by
  induction l with
  | nil => simp [List.dropWhile]
  | cons c cs ih =>
      rw [List.dropWhile_cons]
      split
      · exact Nat.le_trans ih (by simp)
      · simp

lemma matchLitCI_length (p : List Char) :
    ∀ s r, matchLitCI p s = some r → r.length + p.length = s.length := by
  induction p with
  | nil => intro s r h; simp [matchLitCI] at h; simp [h]
  | cons x xs ih =>
      intro s r h
      cases s with
      | nil => simp [matchLitCI] at h
      | cons c cs =>
          rw [matchLitCI] at h
          by_cases hx : lcEq x c
          · rw [if_pos hx] at h
            have := ih cs r h
            simp [List.length_cons]
            omega
          · rw [if_neg hx] at h
            exact absurd h (by simp)

lemma dropSpaces_le (s : List Char) : (dropSpaces s).length ≤ s.length :=
  length_dropWhile_le pyIsSpace s

lemma cdataOpen_le (s : List Char) : (cdataOpen s).length ≤ s.length := by
  unfold cdataOpen
  cases h : matchLitCI "<![CDATA[".data s with
  | none => exact Nat.le_refl _
  | some r =>
      have := matchLitCI_length _ s r h
      exact Nat.le_trans (dropSpaces_le r) (by omega)

lemma cdataClose_le (s : List Char) : (cdataClose s).length ≤ s.length := by
  unfold cdataClose
  cases h : matchLitCI "]]>".data (dropSpaces s) with
  | none => exact Nat.le_refl _
  | some r =>
      show r.length ≤ s.length
      have h1 := matchLitCI_length _ (dropSpaces s) r h
      have h2 := dropSpaces_le s
      omega

lemma matchLoc1_after_lt (s m after : List Char)
    (h : matchLoc1 s = some (m, after)) : after.length < s.length := by
  unfold matchLoc1 at h
  cases h1 : matchLitCI "<loc>".data s with
  | none => rw [h1] at h; exact absurd h (by simp)
  | some s1 =>
      rw [h1] at h
      simp only at h
      cases h2 : matchUrl (cdataOpen (dropSpaces s1)) with
      | none => rw [h2] at h; exact absurd h (by simp)
      | some ulen =>
          rw [h2] at h
          simp only at h
          cases h3 : matchLitCI "</loc>".data
              (dropSpaces (cdataClose ((cdataOpen (dropSpaces s1)).drop ulen))) with
          | none => rw [h3] at h; exact absurd h (by simp)
          | some rest =>
              rw [h3] at h
              simp only [Option.some.injEq, Prod.mk.injEq] at h
              rw [← h.2]
              have l1 := matchLitCI_length _ s s1 h1
              have l3 := matchLitCI_length _ _ rest h3
              have c5 : ("<loc>".data).length = 5 := rfl
              have c6 : ("</loc>".data).length = 6 := rfl
              rw [c5] at l1
              rw [c6] at l3
              have l4 := dropSpaces_le (cdataClose ((cdataOpen (dropSpaces s1)).drop ulen))
              have l5 := cdataClose_le ((cdataOpen (dropSpaces s1)).drop ulen)
              have l6 : ((cdataOpen (dropSpaces s1)).drop ulen).length ≤
                  (cdataOpen (dropSpaces s1)).length := by simp [List.length_drop]
              have l7 := cdataOpen_le (dropSpaces s1)
              have l8 := dropSpaces_le s1
              omega

lemma matchScheme_bounds (s : List Char) (n : Nat) (h : matchScheme s = some n) :
    1 ≤ n ∧ 4 ≤ s.length := by
  unfold matchScheme at h
  cases h1 : matchLitCI "http".data s with
  | none => rw [h1] at h; exact absurd h (by simp)
  | some r =>
      rw [h1] at h
      simp only at h
      have l1 := matchLitCI_length _ s r h1
      have c4 : ("http".data).length = 4 := rfl
      rw [c4] at l1
      by_cases hS : schemeHasS r
      · rw [if_pos hS] at h
        simp only [Option.some.injEq] at h
        omega
      · rw [if_neg hS] at h
        by_cases hC : (matchLitCI "://".data r).isSome
        · rw [if_pos hC] at h
          simp only [Option.some.injEq] at h
          omega
        · rw [if_neg hC] at h
          exact absurd h (by simp)

lemma hinduMatchAt_after_lt (s m after : List Char)
    (h : hinduMatchAt s = some (m, after)) : after.length < s.length := by
  unfold hinduMatchAt at h
  cases h1 : matchScheme s with
  | none => rw [h1] at h; exact absurd h (by simp)
  | some n =>
      rw [h1] at h
      simp only at h
      obtain ⟨hn, hs4⟩ := matchScheme_bounds s n h1
      by_cases hc : (!((s.drop n).takeWhile isHinduRunChar).isEmpty &&
          containsCI "thehindu.com".data ((s.drop n).takeWhile isHinduRunChar).tail)
      · rw [if_pos hc] at h
        simp only [Option.some.injEq, Prod.mk.injEq] at h
        rw [← h.2]
        have l1 := length_dropWhile_le isHinduRunChar (s.drop n)
        have l2 : (s.drop n).length = s.length - n := by simp [List.length_drop]
        omega
      · rw [if_neg hc] at h
        exact absurd h (by simp)

lemma reFindAux_fuel (matchAt : List Char → Option (List Char × List Char))
    (hm : ∀ s m after, matchAt s = some (m, after) → after.length < s.length) :
    ∀ f1 s f2, s.length ≤ f1 → s.length ≤ f2 →
      reFindAux matchAt f1 s = reFindAux matchAt f2 s := by
  intro f1
  induction f1 with
  | zero =>
      intro s f2 h1 _
      have hs : s = [] := List.eq_nil_of_length_eq_zero (by omega)
      subst hs
      cases f2 <;> rfl
  | succ f1 ih =>
      intro s f2 h1 h2
      cases s with
      | nil => cases f2 <;> rfl
      | cons c cs =>
          cases f2 with
          | zero => simp at h2
          | succ f2 =>
              rw [reFindAux, reFindAux]
              cases hmm : matchAt (c :: cs) with
              | some p =>
                  obtain ⟨m, after⟩ := p
                  have hlt := hm _ _ _ hmm
                  show String.mk m :: reFindAux matchAt f1 after =
                    String.mk m :: reFindAux matchAt f2 after
                  rw [ih after f2 (by simp at h1 hlt ⊢; omega)
                    (by simp at h2 hlt ⊢; omega)]
              | none =>
                  exact ih cs f2 (by simp at h1 ⊢; omega) (by simp at h2 ⊢; omega)

lemma replaceFuel_fuel :
    ∀ f1 p r s f2, s.length ≤ f1 → s.length ≤ f2 →
      replaceFuel f1 p r s = replaceFuel f2 p r s := by
  intro f1
  induction f1 with
  | zero =>
      intro p r s f2 h1 _
      have hs : s = [] := List.eq_nil_of_length_eq_zero (by omega)
      subst hs
      cases f2 with
      | zero => rfl
      | succ f2 => cases p <;> rfl
  | succ f1 ih =>
      intro p r s f2 h1 h2
      cases p with
      | nil => cases f2 with
          | zero => rfl
          | succ f2 => rfl
      | cons p ps =>
          cases s with
          | nil => cases f2 with
              | zero => rfl
              | succ f2 => rfl
          | cons c cs =>
              cases f2 with
              | zero => simp at h2
              | succ f2 =>
                  rw [replaceFuel, replaceFuel]
                  split
                  · rw [ih (p :: ps) r (cs.drop ps.length) f2
                      (by simp [List.length_drop] at h1 ⊢; omega)
                      (by simp [List.length_drop] at h2 ⊢; omega)]
                  · rw [ih (p :: ps) r cs f2
                      (by simp at h1 ⊢; omega) (by simp at h2 ⊢; omega)]

/-! ### De-duplication (C4) -/

lemma dedupFirst_loop :
    ∀ (l out seen : List String),
      (l.foldl
        (fun (acc : List String × List String) u =>
          if u ∈ acc.2 then acc else (acc.1 ++ [u], u :: acc.2))
        (out, seen)).1 = out ++ dedupAux seen l := by
  intro l
  induction l with
  | nil => intro out seen; simp [dedupAux]
  | cons v rest ih =>
      intro out seen
      by_cases h : v ∈ seen
      · simp only [List.foldl_cons, if_pos h, dedupAux, ih]
      · simp only [List.foldl_cons, if_neg h, dedupAux, ih]
        simp

lemma dedupFirst_eq (l : List String) : dedupFirst l = dedupAux [] l := by
  have := dedupFirst_loop l [] []
  simpa [dedupFirst] using this

lemma dedupAux_mem :
    ∀ (l seen : List String) (u : String),
      u ∈ dedupAux seen l ↔ (u ∈ l ∧ u ∉ seen) := by
  intro l
  induction l with
  | nil => intro seen u; simp [dedupAux]
  | cons v rest ih =>
      intro seen u
      by_cases h : v ∈ seen
      · rw [dedupAux, if_pos h, ih]
        constructor
        · rintro ⟨h1, h2⟩
          exact ⟨List.mem_cons_of_mem v h1, h2⟩
        · rintro ⟨h1, h2⟩
          rcases List.mem_cons.mp h1 with heq | hm
          · exact absurd (heq ▸ h) h2
          · exact ⟨hm, h2⟩
      · rw [dedupAux, if_neg h]
        constructor
        · intro hu
          rcases List.mem_cons.mp hu with heq | hm
          · subst heq
            exact ⟨List.mem_cons_self u rest, h⟩
          · obtain ⟨h1, h2⟩ := (ih (v :: seen) u).mp hm
            refine ⟨List.mem_cons_of_mem v h1, fun hc => h2 (List.mem_cons_of_mem v hc)⟩
        · rintro ⟨h1, h2⟩
          rcases List.mem_cons.mp h1 with heq | hm
          · exact heq ▸ List.mem_cons_self v _
          · by_cases huv : u = v
            · exact huv ▸ List.mem_cons_self v _
            · refine List.mem_cons_of_mem v ((ih (v :: seen) u).mpr ⟨hm, ?_⟩)
              intro hc
              rcases List.mem_cons.mp hc with heq2 | hseen
              · exact huv heq2
              · exact h2 hseen

lemma dedupAux_pairwise :
    ∀ (l seen : List String),
      (dedupAux seen l).Pairwise (fun a b => l.indexOf a < l.indexOf b) := by
  intro l
  induction l with
  | nil => intro seen; simp [dedupAux]
  | cons v rest ih =>
      intro seen
      by_cases h : v ∈ seen
      · rw [dedupAux, if_pos h]
        refine List.Pairwise.imp_of_mem ?_ (ih seen)
        intro a b ha hb hlt
        have hav : v ≠ a := fun he =>
          ((dedupAux_mem rest seen a).mp ha).2 (he ▸ h)
        have hbv : v ≠ b := fun he =>
          ((dedupAux_mem rest seen b).mp hb).2 (he ▸ h)
        rw [List.indexOf_cons_ne rest hav, List.indexOf_cons_ne rest hbv]
        omega
      · rw [dedupAux, if_neg h]
        rw [List.pairwise_cons]
        constructor
        · intro b hb
          have hbv : v ≠ b := fun he =>
            ((dedupAux_mem rest (v :: seen) b).mp hb).2
              (he ▸ List.mem_cons_self v seen)
          rw [List.indexOf_cons_self, List.indexOf_cons_ne rest hbv]
          omega
        · refine List.Pairwise.imp_of_mem ?_ (ih (v :: seen))
          intro a b ha hb hlt
          have hav : v ≠ a := fun he =>
            ((dedupAux_mem rest (v :: seen) a).mp ha).2
              (he ▸ List.mem_cons_self v seen)
          have hbv : v ≠ b := fun he =>
            ((dedupAux_mem rest (v :: seen) b).mp hb).2
              (he ▸ List.mem_cons_self v seen)
          rw [List.indexOf_cons_ne rest hav, List.indexOf_cons_ne rest hbv]
          omega

lemma dedupAux_nodup (l seen : List String) : (dedupAux seen l).Nodup :=
  (dedupAux_pairwise l seen).imp
    (fun hlt heq => absurd (heq ▸ hlt) (lt_irrefl _))

/-- Counterexample to Claim C4: on a well-formed sitemap whose two
`<url><loc>` entries carry the same URL, the aaj_tak extractor's strategy 1
returns that URL twice — the XML-parse strategies do not de-duplicate. -/
theorem C4_dedup_counterexample :
    extract_urls_from_sitemap_robust sitemapDupText (some sitemapDupTree) =
      ["https://a.example/x", "https://a.example/x"] ∧
    ¬ (extract_urls_from_sitemap_robust sitemapDupText (some sitemapDupTree)).Nodup := by
  exact ⟨by decide, by decide⟩

/-- Claim C4 (amended): the de-duplication loop keeps exactly the first
occurrence of each URL in first-seen order; the_hindu feed extractor's output
is therefore always duplicate-free (both its XML and regex paths pass through
that loop), as is the aaj_tak extractor's output on documents whose XML parse
fails (regex path).  The aaj_tak XML-parse strategies, however, return the
extracted `<loc>` texts in document order without de-duplication. -/
theorem C4_dedup_amended :
    (∀ l : List String,
        (dedupFirst l).Nodup ∧ (∀ u, u ∈ dedupFirst l ↔ u ∈ l) ∧
        (dedupFirst l).Pairwise (fun a b => l.indexOf a < l.indexOf b)) ∧
    (∀ xmlText parse, (extract_article_urls_from_feed xmlText parse).Nodup) ∧
    (∀ xmlText, (extract_urls_from_sitemap_robust xmlText none).Nodup) := by
  have hd : ∀ l : List String, (dedupFirst l).Nodup := fun l => by
    rw [dedupFirst_eq]; exact dedupAux_nodup l []
  refine ⟨fun l => ⟨hd l, ?_, ?_⟩, ?_, ?_⟩
  · intro u
    rw [dedupFirst_eq, dedupAux_mem]
    simp
  · rw [dedupFirst_eq]
    exact dedupAux_pairwise l []
  · intro xmlText parse
    unfold extract_article_urls_from_feed
    split
    · exact List.nodup_nil
    · cases parse with
      | none => exact hd _
      | some root =>
          simp only
          split
          · exact hd _
          · exact hd _
  · intro xmlText
    unfold extract_urls_from_sitemap_robust
    split
    · exact List.nodup_nil
    · exact hd _

/-! ### Fallback chain (C5) -/

/-- Counterexample to Claim C5: `cdataText` is well-formed XML (its parse is
`cdataTree`), all three XML strategies yield no URLs on it, and yet the
extractor's result is produced by the text-pattern fallback — the regex is
not reserved for documents whose XML parse fails. -/
theorem C5_fallback_counterexample :
    extract_urls_from_sitemap_robust cdataText (some cdataTree) =
      ["https://x.example/a"] ∧
    strategy12 cdataTree (nsTag "url") (nsTag "loc") = [] ∧
    strategy12 cdataTree "url" "loc" = [] ∧
    strategy3 cdataTree = [] := by
  exact ⟨by decide, by decide, by decide, by decide⟩

/-- Claim C5 (amended): the extractor attempts its strategies in the listed
order and the first strategy to yield a non-empty list wins and
short-circuits the rest; the text-pattern fallback is applied when XML
parsing fails **and also** on well-formed documents for which all three
XML-parse strategies yield no URLs. -/
theorem C5_fallback_chain_amended (xmlText : String) (root : XMLElem)
    (h20 : ¬ xmlText.length < 20) :
    (extract_urls_from_sitemap_robust xmlText none =
      dedupFirst ((locFindall xmlText).map pyStrip)) ∧
    (strategy12 root (nsTag "url") (nsTag "loc") ≠ [] →
      extract_urls_from_sitemap_robust xmlText (some root) =
        strategy12 root (nsTag "url") (nsTag "loc")) ∧
    (strategy12 root (nsTag "url") (nsTag "loc") = [] →
      strategy12 root "url" "loc" ≠ [] →
      extract_urls_from_sitemap_robust xmlText (some root) =
        strategy12 root "url" "loc") ∧
    (strategy12 root (nsTag "url") (nsTag "loc") = [] →
      strategy12 root "url" "loc" = [] → strategy3 root ≠ [] →
      extract_urls_from_sitemap_robust xmlText (some root) = strategy3 root) ∧
    (strategy12 root (nsTag "url") (nsTag "loc") = [] →
      strategy12 root "url" "loc" = [] → strategy3 root = [] →
      extract_urls_from_sitemap_robust xmlText (some root) =
        dedupFirst ((locFindall xmlText).map pyStrip)) := by
  refine ⟨?_, ?_, ?_, ?_, ?_⟩
  · unfold extract_urls_from_sitemap_robust
    rw [if_neg h20]
  · intro h1
    unfold extract_urls_from_sitemap_robust
    rw [if_neg h20]
    simp [h1]
  · intro h1 h2
    unfold extract_urls_from_sitemap_robust
    rw [if_neg h20]
    simp [h1, h2]
  · intro h1 h2 h3
    unfold extract_urls_from_sitemap_robust
    rw [if_neg h20]
    simp [h1, h2, h3]
  · intro h1 h2 h3
    unfold extract_urls_from_sitemap_robust
    rw [if_neg h20]
    simp [h1, h2, h3]

/-- Witness for the amended C5: on the concrete well-formed `cdataText` the
result equals the regex-fallback output. -/
theorem C5_fallback_chain_amended_witness :
    extract_urls_from_sitemap_robust cdataText (some cdataTree) =
      dedupFirst ((locFindall cdataText).map pyStrip) := by
  exact (C5_fallback_chain_amended cdataText cdataTree (by decide)).2.2.2.2
    (by decide) (by decide) (by decide)

/-! ### Empty responses (C6) -/

/-- Counterexample to Claim C6: with `max_retries = 3`, a fetch whose `arun`
returns a response with no html makes `fetch_sitemap_via_crawler` raise after
exactly **one** call — the emptiness check sits outside `retry_async`, so an
empty body does not trigger a retry, unlike a network failure, which is
retried until the budget of 3 calls is spent. -/
theorem C6_empty_not_retried_counterexample :
    fetch_sitemap_via_crawler (fun _ => Except.ok none) 3 1 =
      (Except.error "Empty sitemap response from crawler.", 1) ∧
    fetch_sitemap_via_crawler (fun _ => Except.error "net down") 3 1 =
      (Except.error "net down", 3) := by
  constructor
  · have h := retryFrom_ok (E := String) (fun _ => Except.ok (none : Option String))
      3 1 0 none 0 (by omega) (fun i hi => absurd hi (by omega)) rfl
    unfold fetch_sitemap_via_crawler retry_async
    rw [h]
    rfl
  · have h := retryFrom_allFail (A := Option String)
      (fun _ => Except.error "net down") 3 1 2 "net down" 0
      (by omega) (fun i _ => ⟨"net down", rfl⟩) rfl
    unfold fetch_sitemap_via_crawler retry_async
    rw [h]

/-- Claim C6 (amended): an empty response body from a feed/sitemap fetch is
detected only **after** the retry wrapper returns: the fetch helper raises to
its caller after a single call instead of retrying.  For article pages an
empty body is not an error at all: the scrape body falls back through the
content fields, writes the (possibly empty) string, and marks the URL
completed. -/
theorem C6_empty_response_amended (u : String)
    (arun : Nat → Except String (Option String)) (mr : Nat) (bb : ℚ)
    (h0 : arun 0 = Except.ok none ∨ arun 0 = Except.ok (some "")) :
    fetch_sitemap_via_crawler arun mr bb =
      (Except.error "Empty sitemap response from crawler.", 1) ∧
    fetch_text_via_crawler u arun mr bb =
      (Except.error ("Empty response from " ++ u), 1) ∧
    scrape_single_page u [] (Except.ok ⟨none, none, none⟩) =
      (ScrapeOutcome.completed "", [u]) := by
  have hr : retry_async arun mr bb = (arun 0, 1, []) := by
    rw [retry_async, retryFrom]
    rcases h0 with h0 | h0 <;> rw [h0]
  refine ⟨?_, ?_, ?_⟩
  · unfold fetch_sitemap_via_crawler
    rw [hr]
    rcases h0 with h0 | h0 <;> rw [h0] <;> rfl
  · unfold fetch_text_via_crawler
    rw [hr]
    rcases h0 with h0 | h0 <;> rw [h0] <;> rfl
  · rfl

/-- Witness for the amended C6 at concrete inputs. -/
theorem C6_empty_response_amended_witness :
    fetch_sitemap_via_crawler (fun _ => Except.ok none) 5 2 =
      (Except.error "Empty sitemap response from crawler.", 1) ∧
    fetch_text_via_crawler "https://w.example/a" (fun _ => Except.ok none) 5 2 =
      (Except.error ("Empty response from " ++ "https://w.example/a"), 1) ∧
    scrape_single_page "https://w.example/a" [] (Except.ok ⟨none, none, none⟩) =
      (ScrapeOutcome.completed "", ["https://w.example/a"]) :=
  C6_empty_response_amended "https://w.example/a"
    (fun _ => Except.ok none) 5 2 (Or.inl rfl)

/-! ### `url_to_fname` (C10) -/

lemma noSlash_replaceFuel :
    ∀ (fuel : Nat) (s : List Char), s.length ≤ fuel →
      '/' ∉ replaceFuel fuel ['/'] ['_'] s := by
  intro fuel
  induction fuel with
  | zero =>
      intro s hs
      have : s = [] := List.eq_nil_of_length_eq_zero (by omega)
      subst this
      simp [replaceFuel]
  | succ fuel ih =>
      intro s hs
      cases s with
      | nil => simp [replaceFuel]
      | cons c cs =>
          rw [replaceFuel]
          by_cases hl : litAt ['/'] (c :: cs)
          · rw [if_pos hl]
            intro hmem
            rcases List.mem_append.mp hmem with hin | hin
            · simp at hin
            · exact ih (cs.drop (List.length [])) (by simp at hs ⊢; omega) hin
          · rw [if_neg hl]
            intro hmem
            rcases List.mem_cons.mp hmem with heq | hin
            · apply hl
              rw [← heq]
              simp [litAt]
            · exact ih cs (by simp at hs; omega) hin

/-- The shape of `url_to_fname`: a slash-free readable part (possibly
truncated) followed by `_` and the first 12 digest characters. -/
lemma url_to_fname_parts (sha1hex : String → String) (url : String) :
    ∃ niceList : List Char,
      url_to_fname sha1hex url =
        (if 60 < niceList.length then String.mk (niceList.take 60) ++ "..."
         else String.mk niceList) ++ "_" ++
          String.mk ((sha1hex url).data.take 12) ∧
      '/' ∉ niceList := by
  refine ⟨replaceAll "/".data "_".data
    (replaceAll "http://".data [] (replaceAll "https://".data [] url.data)),
    rfl, ?_⟩
  exact noSlash_replaceFuel _ _ (Nat.le_refl _)

/-- Claim C10: for every URL, `url_to_fname` yields a name of length at most
76 with no `/`: the scheme is stripped, each `/` becomes `_`, the readable
head is truncated to at most 63 characters, and the name ends in `_` plus the
12-character sha1 prefix of the full URL.  (Hypotheses state what the
external `hexdigest` guarantees: 40 characters over `0-9a-f`.) -/
theorem C10_url_to_fname (sha1hex : String → String) (url : String)
    (hlen : (sha1hex url).length = 40)
    (hhex : ∀ c ∈ (sha1hex url).data, c ∈ hexDigits) :
    (url_to_fname sha1hex url).length ≤ 76 ∧
    '/' ∉ (url_to_fname sha1hex url).data ∧
    ∃ nice h12, url_to_fname sha1hex url = nice ++ "_" ++ h12 ∧
      nice.length ≤ 63 ∧ h12.length = 12 ∧
      h12 = String.mk ((sha1hex url).data.take 12) := by
  obtain ⟨L, hEq, hSlash⟩ := url_to_fname_parts sha1hex url
  have hD40 : (sha1hex url).data.length = 40 := hlen
  have h12len : ((sha1hex url).data.take 12).length = 12 := by
    rw [List.length_take]
    omega
  have h12slash : '/' ∉ (sha1hex url).data.take 12 := by
    intro hc
    have h1 := hhex '/' (List.take_subset _ _ hc)
    revert h1
    decide
  have hnice2data :
      ((if 60 < L.length then String.mk (L.take 60) ++ "..." else String.mk L)).data
        = (if 60 < L.length then L.take 60 ++ "...".data else L) := by
    by_cases h : 60 < L.length
    · rw [if_pos h, if_pos h, data_append]
    · rw [if_neg h, if_neg h]
  have hnice2len :
      ((if 60 < L.length then String.mk (L.take 60) ++ "..." else String.mk L)).data.length
        ≤ 63 := by
    rw [hnice2data]
    by_cases h : 60 < L.length
    · rw [if_pos h]
      rw [List.length_append, List.length_take]
      have : ("...".data).length = 3 := rfl
      omega
    · rw [if_neg h]
      omega
  have hnice2slash :
      '/' ∉ ((if 60 < L.length then String.mk (L.take 60) ++ "..."
        else String.mk L)).data := by
    rw [hnice2data]
    by_cases h : 60 < L.length
    · rw [if_pos h]
      intro hc
      rcases List.mem_append.mp hc with hin | hin
      · exact hSlash (List.take_subset _ _ hin)
      · revert hin
        decide
    · rw [if_neg h]
      exact hSlash
  have hdata : (url_to_fname sha1hex url).data =
      ((if 60 < L.length then String.mk (L.take 60) ++ "..." else String.mk L)).data
        ++ "_".data ++ (sha1hex url).data.take 12 := by
    rw [hEq, data_append, data_append]
  refine ⟨?_, ?_, ?_⟩
  · show (url_to_fname sha1hex url).data.length ≤ 76
    rw [hdata]
    rw [List.length_append, List.length_append]
    have h1 : ("_".data).length = 1 := rfl
    omega
  · rw [hdata]
    intro hc
    rcases List.mem_append.mp hc with hc1 | hc1
    · rcases List.mem_append.mp hc1 with hc2 | hc2
      · exact hnice2slash hc2
      · revert hc2
        decide
    · exact h12slash hc1
  · exact ⟨_, _, hEq, hnice2len, h12len, rfl⟩

/-- Witness for C10 at a concrete URL and a concrete 40-hex-character
digest function. -/
theorem C10_url_to_fname_witness :
    (url_to_fname (fun _ => "0123456789abcdef0123456789abcdef01234567")
        "https://news.example.com/world/some/very/long/article/path/that/keeps/going/and/going").length ≤ 76 ∧
    '/' ∉ (url_to_fname (fun _ => "0123456789abcdef0123456789abcdef01234567")
        "https://news.example.com/world/some/very/long/article/path/that/keeps/going/and/going").data := by
  have h := C10_url_to_fname
    (fun _ => "0123456789abcdef0123456789abcdef01234567")
    "https://news.example.com/world/some/very/long/article/path/that/keeps/going/and/going"
    (by decide) (by decide)
  exact ⟨h.1, h.2.1⟩

/-! ### Bounded Scrape Scheduler (C3, C8, C9) -/

lemma countP_set (p : STask → Bool) :
    ∀ (l : List STask) (i : Nat) (t a : STask), l[i]? = some t →
      (l.set i a).countP p + (if p t then 1 else 0) =
        l.countP p + (if p a then 1 else 0) := by
  intro l
  induction l with
  | nil => intro i t a ht; simp at ht
  | cons x xs ih =>
      intro i t a ht
      cases i with
      | zero =>
          simp only [List.getElem?_cons_zero, Option.some.injEq] at ht
          subst ht
          simp only [List.set_cons_zero, List.countP_cons]
          omega
      | succ i =>
          simp only [List.getElem?_cons_succ] at ht
          simp only [List.set_cons_succ, List.countP_cons]
          have := ih i t a ht
          omega

lemma set_same {α : Type} : ∀ (l : List α) (i : Nat) (a : α),
    l[i]? = some a → l.set i a = l := by
  intro l
  induction l with
  | nil => intro i a h; simp at h
  | cons x xs ih =>
      intro i a h
      cases i with
      | zero =>
          simp only [List.getElem?_cons_zero, Option.some.injEq] at h
          subst h
          rfl
      | succ i =>
          simp only [List.getElem?_cons_succ] at h
          simp [List.set_cons_succ, ih i a h]

/-- A step never changes the list of task URLs. -/
lemma step_urls {s s' : SchedState} (h : SchedStep s s') :
    s'.tasks.map STask.url = s.tasks.map STask.url := by
  cases h with
  | skip i t ht hp hd =>
      show (s.tasks.set i ⟨t.url, Phase.skipped⟩).map STask.url = _
      rw [List.map_set]
      exact set_same _ i _ (by rw [List.getElem?_map, ht]; rfl)
  | proceed i t ht hp hd =>
      show (s.tasks.set i ⟨t.url, Phase.waiting⟩).map STask.url = _
      rw [List.map_set]
      exact set_same _ i _ (by rw [List.getElem?_map, ht]; rfl)
  | acquire i t ht hp ha =>
      show (s.tasks.set i ⟨t.url, Phase.running⟩).map STask.url = _
      rw [List.map_set]
      exact set_same _ i _ (by rw [List.getElem?_map, ht]; rfl)
  | finishOk i t ht hp =>
      show (s.tasks.set i ⟨t.url, Phase.succeeded⟩).map STask.url = _
      rw [List.map_set]
      exact set_same _ i _ (by rw [List.getElem?_map, ht]; rfl)
  | finishFail i t ht hp =>
      show (s.tasks.set i ⟨t.url, Phase.failed⟩).map STask.url = _
      rw [List.map_set]
      exact set_same _ i _ (by rw [List.getElem?_map, ht]; rfl)

lemma reachable_urls (limit : Nat) (urls done0 : List String) :
    ∀ s, Reachable limit urls done0 s → s.tasks.map STask.url = urls := by
  intro s h
  induction h with
  | refl =>
      show (urls.map (fun u => (⟨u, Phase.notStarted⟩ : STask))).map STask.url = urls
      rw [List.map_map]
      exact List.map_id urls
  | tail _ hstep ih =>
      rw [step_urls hstep, ih]

/-- The semaphore invariant: active fetches plus free permits equal the
configured concurrency. -/
lemma reachable_count (limit : Nat) (urls done0 : List String) :
    ∀ s, Reachable limit urls done0 s → countRunning s + s.avail = limit := by
  intro s h
  induction h with
  | refl =>
      show (urls.map (fun u => (⟨u, Phase.notStarted⟩ : STask))).countP
          (fun t => t.phase == Phase.running) + limit = limit
      rw [List.countP_map]
      simp [Function.comp_def]
  | tail _ hstep ih =>
      cases hstep with
      | skip i t ht hp hd =>
          have hc := countP_set (fun t => t.phase == Phase.running)
            _ i t ⟨t.url, Phase.skipped⟩ ht
          simp only [hp] at hc
          simp only [countRunning] at ih ⊢
          simp at hc
          omega
      | proceed i t ht hp hd =>
          have hc := countP_set (fun t => t.phase == Phase.running)
            _ i t ⟨t.url, Phase.waiting⟩ ht
          simp only [hp] at hc
          simp only [countRunning] at ih ⊢
          simp at hc
          omega
      | acquire i t ht hp ha =>
          have hc := countP_set (fun t => t.phase == Phase.running)
            _ i t ⟨t.url, Phase.running⟩ ht
          simp only [hp] at hc
          simp only [countRunning] at ih ⊢
          simp at hc
          omega
      | finishOk i t ht hp =>
          have hc := countP_set (fun t => t.phase == Phase.running)
            _ i t ⟨t.url, Phase.succeeded⟩ ht
          simp only [hp] at hc
          simp only [countRunning] at ih ⊢
          simp at hc
          omega
      | finishFail i t ht hp =>
          have hc := countP_set (fun t => t.phase == Phase.running)
            _ i t ⟨t.url, Phase.failed⟩ ht
          simp only [hp] at hc
          simp only [countRunning] at ih ⊢
          simp at hc
          omega

/-- Claim C3: within one run of one crawl source, the number of
simultaneously active page fetches never exceeds the configured concurrency
limit, in every reachable interleaving: each fetch holds one of the `limit`
semaphore permits, acquired before the fetch and released afterwards whether
it succeeds or fails. -/
theorem C3_bounded_concurrency (limit : Nat) (urls done0 : List String)
    (s : SchedState) (h : Reachable limit urls done0 s) :
    countRunning s ≤ limit := by
  have := reachable_count limit urls done0 s h
  omega

/-- Witness for C3 at a concrete reachable state. -/
theorem C3_bounded_concurrency_witness :
    countRunning (initState 4 ["https://a.example/x"] []) ≤ 4 :=
  C3_bounded_concurrency 4 ["https://a.example/x"] [] _ Relation.ReflTransGen.refl

/-- The resumability invariant: the loaded done set only grows, and a task
whose URL was already loaded as done never leaves the
not-started/skipped phases. -/
lemma reachable_inv_done (limit : Nat) (urls done0 : List String) :
    ∀ s, Reachable limit urls done0 s →
      (∀ u ∈ done0, u ∈ s.done) ∧
      (∀ t ∈ s.tasks, t.url ∈ done0 →
        t.phase = Phase.notStarted ∨ t.phase = Phase.skipped) := by
  intro s h
  induction h with
  | refl =>
      refine ⟨fun u hu => hu, fun t ht _ => ?_⟩
      obtain ⟨u, _, rfl⟩ := List.mem_map.mp ht
      exact Or.inl rfl
  | tail _ hstep ih =>
      cases hstep with
      | skip i t ht hp hd =>
          refine ⟨ih.1, fun t' ht' hu => ?_⟩
          rcases List.mem_or_eq_of_mem_set ht' with hm | rfl
          · exact ih.2 t' hm hu
          · exact Or.inr rfl
      | proceed i t ht hp hd =>
          refine ⟨ih.1, fun t' ht' hu => ?_⟩
          rcases List.mem_or_eq_of_mem_set ht' with hm | rfl
          · exact ih.2 t' hm hu
          · exact absurd (ih.1 _ hu) hd
      | acquire i t ht hp ha =>
          refine ⟨ih.1, fun t' ht' hu => ?_⟩
          rcases List.mem_or_eq_of_mem_set ht' with hm | rfl
          · exact ih.2 t' hm hu
          · rcases ih.2 t (List.getElem?_mem ht) hu with h1 | h1 <;>
              rw [hp] at h1 <;> exact Phase.noConfusion h1
      | finishOk i t ht hp =>
          refine ⟨fun u hu => List.mem_cons_of_mem _ (ih.1 u hu), fun t' ht' hu => ?_⟩
          rcases List.mem_or_eq_of_mem_set ht' with hm | rfl
          · exact ih.2 t' hm hu
          · rcases ih.2 t (List.getElem?_mem ht) hu with h1 | h1 <;>
              rw [hp] at h1 <;> exact Phase.noConfusion h1
      | finishFail i t ht hp =>
          refine ⟨ih.1, fun t' ht' hu => ?_⟩
          rcases List.mem_or_eq_of_mem_set ht' with hm | rfl
          · exact ih.2 t' hm hu
          · rcases ih.2 t (List.getElem?_mem ht) hu with h1 | h1 <;>
              rw [hp] at h1 <;> exact Phase.noConfusion h1

/-- Claim C8: a URL in the loaded ProgressSet is never fetched — the
orchestrator's pending list is empty when every extracted URL is already
done, and even a task created for such a URL can only move to the skipped
phase (so it never runs a page fetch) in any reachable interleaving. -/
theorem C8_idempotent_second_run (limit : Nat) (urls done0 : List String)
    (hall : ∀ u ∈ urls, u ∈ done0) :
    to_process urls done0 = [] ∧
    ∀ s, Reachable limit urls done0 s →
      ∀ t ∈ s.tasks, t.phase = Phase.notStarted ∨ t.phase = Phase.skipped := by
  constructor
  · refine List.filter_eq_nil_iff.mpr (fun u hu => ?_)
    simp [hall u hu]
  · intro s hs t ht
    have hurl : t.url ∈ urls := by
      rw [← reachable_urls limit urls done0 s hs]
      exact List.mem_map_of_mem STask.url ht
    exact (reachable_inv_done limit urls done0 s hs).2 t ht (hall _ hurl)

/-- Witness for C8: a second run over one already-completed URL has an empty
pending list and its (hypothetical) task never leaves not-started/skipped. -/
theorem C8_idempotent_second_run_witness :
    to_process ["https://a.example/x"] ["https://a.example/x"] = [] ∧
    ∀ s, Reachable 2 ["https://a.example/x"] ["https://a.example/x"] s →
      ∀ t ∈ s.tasks, t.phase = Phase.notStarted ∨ t.phase = Phase.skipped :=
  C8_idempotent_second_run 2 ["https://a.example/x"] ["https://a.example/x"]
    (by simp)

/-- Counterexample to Claim C9: when the candidate list repeats a URL (which
the aaj_tak XML strategies can produce, as they do not de-duplicate), the
state with **two** simultaneously running tasks for that same URL is
reachable: the membership check at admission does not block the second task,
because the URL only joins the done set after the first task completes. -/
theorem C9_dup_inflight_counterexample :
    Reachable 2 ["u", "u"] []
      ⟨[⟨"u", Phase.running⟩, ⟨"u", Phase.running⟩], 0, []⟩ ∧
    ([(⟨"u", Phase.running⟩ : STask), ⟨"u", Phase.running⟩].countP
      (fun t => t.phase == Phase.running && t.url == "u")) = 2 := by
  constructor
  · have h1 : SchedStep (initState 2 ["u", "u"] [])
        ⟨[⟨"u", Phase.waiting⟩, ⟨"u", Phase.notStarted⟩], 2, []⟩ :=
      SchedStep.proceed _ 0 ⟨"u", Phase.notStarted⟩ rfl rfl (by simp [initState])
    have h2 : SchedStep ⟨[⟨"u", Phase.waiting⟩, ⟨"u", Phase.notStarted⟩], 2, []⟩
        ⟨[⟨"u", Phase.waiting⟩, ⟨"u", Phase.waiting⟩], 2, []⟩ :=
      SchedStep.proceed _ 1 ⟨"u", Phase.notStarted⟩ rfl rfl (by simp)
    have h3 : SchedStep ⟨[⟨"u", Phase.waiting⟩, ⟨"u", Phase.waiting⟩], 2, []⟩
        ⟨[⟨"u", Phase.running⟩, ⟨"u", Phase.waiting⟩], 1, []⟩ :=
      SchedStep.acquire _ 0 ⟨"u", Phase.waiting⟩ rfl rfl (by decide)
    have h4 : SchedStep ⟨[⟨"u", Phase.running⟩, ⟨"u", Phase.waiting⟩], 1, []⟩
        ⟨[⟨"u", Phase.running⟩, ⟨"u", Phase.running⟩], 0, []⟩ :=
      SchedStep.acquire _ 1 ⟨"u", Phase.waiting⟩ rfl rfl (by decide)
    exact Relation.ReflTransGen.tail
      (Relation.ReflTransGen.tail
        (Relation.ReflTransGen.tail (Relation.ReflTransGen.single h1) h2) h3) h4
  · decide

lemma nodup_getElem?_inj {α : Type} :
    ∀ (l : List α), l.Nodup →
      ∀ (i j : Nat) (a : α), l[i]? = some a → l[j]? = some a → i = j := by
  intro l
  induction l with
  | nil => intro _ i j a h; simp at h
  | cons x xs ih =>
      intro hnd i j a hi hj
      cases i with
      | zero =>
          cases j with
          | zero => rfl
          | succ j =>
              simp only [List.getElem?_cons_zero, Option.some.injEq] at hi
              simp only [List.getElem?_cons_succ] at hj
              exact absurd (hi ▸ List.getElem?_mem hj)
                (List.nodup_cons.mp hnd).1
      | succ i =>
          cases j with
          | zero =>
              simp only [List.getElem?_cons_zero, Option.some.injEq] at hj
              simp only [List.getElem?_cons_succ] at hi
              exact absurd (hj ▸ List.getElem?_mem hi)
                (List.nodup_cons.mp hnd).1
          | succ j =>
              simp only [List.getElem?_cons_succ] at hi hj
              exact congrArg Nat.succ
                (ih (List.nodup_cons.mp hnd).2 i j a hi hj)

/-- Claim C9 (amended): provided the candidate URL list contains no
duplicates, no URL ever has two concurrently in-flight scrape tasks in any
reachable state (two distinct tasks always carry distinct URLs).  For lists
with repeated URLs the guarantee fails: the ProgressSet membership check at
admission does not prevent two simultaneously running tasks for the same URL. -/
theorem C9_no_dup_inflight_amended (limit : Nat) (urls done0 : List String)
    (hnd : urls.Nodup) (s : SchedState) (h : Reachable limit urls done0 s) :
    ∀ (i j : Nat) (ti tj : STask), i ≠ j →
      s.tasks[i]? = some ti → s.tasks[j]? = some tj →
      ti.phase = Phase.running → tj.phase = Phase.running →
      ti.url ≠ tj.url := by
  intro i j ti tj hij hti htj _ _ he
  have hmap := reachable_urls limit urls done0 s h
  have hnd' : (s.tasks.map STask.url).Nodup := by rw [hmap]; exact hnd
  have h1 : (s.tasks.map STask.url)[i]? = some ti.url := by
    rw [List.getElem?_map, hti]; rfl
  have h2 : (s.tasks.map STask.url)[j]? = some tj.url := by
    rw [List.getElem?_map, htj]; rfl
  exact hij (nodup_getElem?_inj _ hnd' i j ti.url h1 (he ▸ h2))

/-- Witness for the amended C9: in a concrete reachable state with two
running tasks over the duplicate-free list `["a", "b"]`, the two in-flight
tasks carry distinct URLs. -/
theorem C9_no_dup_inflight_amended_witness :
    (⟨"a", Phase.running⟩ : STask).url ≠ (⟨"b", Phase.running⟩ : STask).url := by
  have h1 : SchedStep (initState 2 ["a", "b"] [])
      ⟨[⟨"a", Phase.waiting⟩, ⟨"b", Phase.notStarted⟩], 2, []⟩ :=
    SchedStep.proceed _ 0 ⟨"a", Phase.notStarted⟩ rfl rfl (by simp [initState])
  have h2 : SchedStep ⟨[⟨"a", Phase.waiting⟩, ⟨"b", Phase.notStarted⟩], 2, []⟩
      ⟨[⟨"a", Phase.waiting⟩, ⟨"b", Phase.waiting⟩], 2, []⟩ :=
    SchedStep.proceed _ 1 ⟨"b", Phase.notStarted⟩ rfl rfl (by simp)
  have h3 : SchedStep ⟨[⟨"a", Phase.waiting⟩, ⟨"b", Phase.waiting⟩], 2, []⟩
      ⟨[⟨"a", Phase.running⟩, ⟨"b", Phase.waiting⟩], 1, []⟩ :=
    SchedStep.acquire _ 0 ⟨"a", Phase.waiting⟩ rfl rfl (by decide)
  have h4 : SchedStep ⟨[⟨"a", Phase.running⟩, ⟨"b", Phase.waiting⟩], 1, []⟩
      ⟨[⟨"a", Phase.running⟩, ⟨"b", Phase.running⟩], 0, []⟩ :=
    SchedStep.acquire _ 1 ⟨"b", Phase.waiting⟩ rfl rfl (by decide)
  have hreach : Reachable 2 ["a", "b"] []
      ⟨[⟨"a", Phase.running⟩, ⟨"b", Phase.running⟩], 0, []⟩ :=
    Relation.ReflTransGen.tail
      (Relation.ReflTransGen.tail
        (Relation.ReflTransGen.tail (Relation.ReflTransGen.single h1) h2) h3) h4
  exact C9_no_dup_inflight_amended 2 ["a", "b"] [] (by simp) _ hreach
    0 1 ⟨"a", Phase.running⟩ ⟨"b", Phase.running⟩ (by omega) rfl rfl rfl rfl

end ATW
